import Mathlib

/-!
Verification of the butler chat client (`src/main.rs`).

The development shallowly embeds the parts of the program that the
specification talks about:

* the data model (`Message`, `ChatCompletionRequest`) and the interactive
  REPL loop of `main` (lines 223-285 of `src/main.rs`);
* the rate limiter `apply_rate_limit` (lines 113-121), with time modelled
  as a logical `Nat` clock: `Instant::elapsed` becomes truncated
  subtraction and `sleep` becomes an explicit release time;
* the status handling of `create_chat_completion` (lines 88-111) and the
  headers it attaches (lines 93-99);
* the streaming pipeline `process_stream` (lines 147-175) and the frame
  decoder `process_sse_message` (lines 177-189), over `List Char`;
  `serde_json::from_str::<Value>` is modelled by an executable fuelled
  JSON parser, and the `json["choices"][0]["delta"]["content"]`
  path-probing by total accessors that return `Json.null` on a miss,
  as `serde_json::Value` indexing does;
* `String::from_utf8_lossy` (line 153) as an executable UTF-8 decoder
  over `List Nat` byte lists, substituting U+FFFD for each maximal
  invalid subpart, as the Rust standard library does.
-/

/-! ## Data model: `Message`, `ChatCompletionRequest` (src/main.rs lines 28-39) -/

structure Message where
  role : String
  content : String
deriving DecidableEq, Repr

structure ChatCompletionRequest where
  model : String
  messages : List Message
  stream : Bool
deriving DecidableEq, Repr

/-! ## The interactive loop of `main` (src/main.rs lines 223-285)

One turn of the REPL: the user line is appended to `conversation_history`
(lines 234-237), a request is built from a clone of the history with
`stream: true` (lines 239-243), and afterwards the assistant content is
appended back only in the non-streaming branch (lines 267-272); the
streaming branch (lines 251-255) prints the stream and leaves the history
alone.  `interactive_step` returns the request that was submitted and the
history after the turn. -/

def interactive_step (model : String) (hist : List Message) (prompt respContent : String) :
    ChatCompletionRequest × List Message :=
  let hist1 := hist ++ [{ role := "user", content := prompt }]
  let req : ChatCompletionRequest := { model := model, messages := hist1, stream := true }
  let hist2 := if req.stream then hist1 else hist1 ++ [{ role := "assistant", content := respContent }]
  (req, hist2)

/-- Run the REPL over a list of (prompt, successful response content)
turns, collecting the submitted requests and the final history. -/
def interactiveRun (model : String) (hist : List Message) :
    List (String × String) → List ChatCompletionRequest × List Message
  | [] => ([], hist)
  | (p, r) :: rest =>
    let step := interactive_step model hist p r
    let remaining := interactiveRun model step.2 rest
    (step.1 :: remaining.1, remaining.2)

/-! ## RateLimiter (src/main.rs lines 65-73, 113-121)

`last_request_time : Option<Instant>` and `rate_limit : Duration` are the
two fields of `OpenAI` that `apply_rate_limit` touches.  Time is a logical
`Nat` clock; `elapsed = now - last` (an `Instant` difference is never
negative, matching truncated subtraction under a monotone clock), the
`sleep(rate_limit - elapsed)` branch releases the caller at
`now + (rate_limit - elapsed)`, and `last_request_time` is then set to the
time at the moment of release. -/

structure RateLimiter where
  last_request_time : Option Nat
  rate_limit : Nat
deriving DecidableEq, Repr

/-- Embeds `OpenAI::apply_rate_limit`: returns the release time and the
updated limiter. -/
def apply_rate_limit (s : RateLimiter) (now : Nat) : Nat × RateLimiter :=
  let release :=
    match s.last_request_time with
    | some last =>
      let elapsed := now - last
      if elapsed < s.rate_limit then now + (s.rate_limit - elapsed) else now
    | none => now
  (release, { last_request_time := some release, rate_limit := s.rate_limit })

/-- Release times of a sequence of `apply_rate_limit` calls made at the
given clock times. -/
def rateLimiterReleases (s : RateLimiter) : List Nat → List Nat
  | [] => []
  | t :: ts =>
    let step := apply_rate_limit s t
    step.1 :: rateLimiterReleases step.2 ts

/-- A call-time sequence is admissible when each call observes a clock
that is not behind the stored `last_request_time` (the clock is
monotone and the stored value was read from the same clock). -/
def validCallTimes (s : RateLimiter) : List Nat → Bool
  | [] => true
  | t :: ts =>
    (s.last_request_time.all fun last => decide (last ≤ t)) &&
      validCallTimes (apply_rate_limit s t).2 ts

/-! ## ChatTransport (src/main.rs lines 88-111) -/

structure HttpResponse where
  status : Nat
  body : String
deriving DecidableEq, Repr

/-- `reqwest::StatusCode::is_success`: 2xx. -/
def statusIsSuccess (status : Nat) : Bool := 200 ≤ status && status ≤ 299

/-- The status inspection of `create_chat_completion` (lines 104-108): a
non-2xx status becomes the `anyhow::bail!` error string carrying the
status and the response body verbatim; a 2xx response is returned
untouched. -/
def create_chat_completion_check (resp : HttpResponse) : Except String HttpResponse :=
  if statusIsSuccess resp.status then Except.ok resp
  else Except.error ("OpenRouter API error: Status " ++ toString resp.status ++ ", Body: " ++ resp.body)

/-- The headers attached by `create_chat_completion` (lines 93-99).  The
request argument mirrors the `request` being sent; the Rust code builds
the same four headers whatever it holds. -/
def request_headers (api_key site_url site_name : String)
    (_req : ChatCompletionRequest) : List (String × String) :=
  [("Authorization", "Bearer " ++ api_key),
   ("HTTP-Referer", site_url),
   ("X-Title", site_name),
   ("Accept", "application/json")]

def headerLookup (name : String) (hs : List (String × String)) : Option String :=
  (hs.find? (fun h => h.1 == name)).map (fun h => h.2)

/-- Embeds the whole of `create_chat_completion` (lines 88-111): first the
rate-limit wait (line 89), whose state update does not depend on the
exchange, then the HTTP exchange, whose status is inspected.  Returns
(release time, updated limiter) and the outcome. -/
def create_chat_completion (s : RateLimiter) (now : Nat) (resp : HttpResponse) :
    (Nat × RateLimiter) × Except String HttpResponse :=
  (apply_rate_limit s now, create_chat_completion_check resp)

/-! ## Rate limiter lemmas -/

theorem apply_rate_limit_release_ge (last Δ now : Nat) (h : last ≤ now) :
    last + Δ ≤ (apply_rate_limit ⟨some last, Δ⟩ now).1 := by
  simp only [apply_rate_limit]
  split <;> omega

theorem apply_rate_limit_state (s : RateLimiter) (now : Nat) :
    (apply_rate_limit s now).2 =
      { last_request_time := some (apply_rate_limit s now).1, rate_limit := s.rate_limit } := by
  rfl

theorem rateLimiterReleases_chain (Δ : Nat) :
    ∀ (ts : List Nat) (last : Option Nat),
      validCallTimes ⟨last, Δ⟩ ts = true →
      List.Chain' (fun a b => a + Δ ≤ b) (rateLimiterReleases ⟨last, Δ⟩ ts) ∧
      (∀ r l, (rateLimiterReleases ⟨last, Δ⟩ ts).head? = some r → last = some l → l + Δ ≤ r)
  | [], _, _ => by
    constructor
    · simp [rateLimiterReleases]
    · intro r l hr
      simp [rateLimiterReleases] at hr
  | t :: ts, last, hv => by
    have hv' : (last.all fun l => decide (l ≤ t)) = true ∧
        validCallTimes (apply_rate_limit ⟨last, Δ⟩ t).2 ts = true := by
      simpa [validCallTimes, Bool.and_eq_true] using hv
    have hstate : (apply_rate_limit ⟨last, Δ⟩ t).2 =
        (⟨some (apply_rate_limit ⟨last, Δ⟩ t).1, Δ⟩ : RateLimiter) := rfl
    have ih := rateLimiterReleases_chain Δ ts (some (apply_rate_limit ⟨last, Δ⟩ t).1)
      (by rw [← hstate]; exact hv'.2)
    constructor
    · have hrel : rateLimiterReleases ⟨last, Δ⟩ (t :: ts) =
        (apply_rate_limit ⟨last, Δ⟩ t).1 ::
          rateLimiterReleases (⟨some (apply_rate_limit ⟨last, Δ⟩ t).1, Δ⟩ : RateLimiter) ts := by
        simp [rateLimiterReleases, hstate]
      rw [hrel, List.chain'_cons']
      refine ⟨?_, ih.1⟩
      intro b hb
      exact ih.2 b _ (by simpa using hb) rfl
    · intro r l hr hl
      subst hl
      have hle : l ≤ t := by simpa [Option.all] using hv'.1
      have : (rateLimiterReleases ⟨some l, Δ⟩ (t :: ts)).head? =
          some (apply_rate_limit ⟨some l, Δ⟩ t).1 := by
        simp [rateLimiterReleases]
      rw [this] at hr
      cases hr
      exact apply_rate_limit_release_ge l Δ t hle

/-! ## Claim theorems: conversation and transport -/

/-- C2: the spec claims that two successfully answered prompts "Hello" and
"How are you?" leave a history of length 4 with the assistant replies
interleaved, and that the second request carries the three prior messages
plus the new user message.  Evaluating the embedded interactive loop at
that very input shows what the code actually does: `stream` is hard-coded
`true` (line 242) and the streaming branch (lines 251-255) never appends
the assistant reply, so the history ends at length 2 with only the two
user messages, and the second request carries exactly those two. -/
theorem claim_c2_code_eval :
    (interactiveRun "anthropic/claude-3.5-sonnet" []
        [("Hello", "r1"), ("How are you?", "r2")]).2 =
      [{ role := "user", content := "Hello" }, { role := "user", content := "How are you?" }] ∧
    (interactiveRun "anthropic/claude-3.5-sonnet" []
        [("Hello", "r1"), ("How are you?", "r2")]).2.length = 2 ∧
    ((interactiveRun "anthropic/claude-3.5-sonnet" []
        [("Hello", "r1"), ("How are you?", "r2")]).1.getD 1
          { model := "", messages := [], stream := true }).messages =
      [{ role := "user", content := "Hello" }, { role := "user", content := "How are you?" }] := by
  refine ⟨rfl, rfl, rfl⟩

/-- C9: snapshot isolation.  Every request embeds `messages` cloned from
the history at submission time (line 241); running any further turns —
each of which appends to the history — leaves every already-built request
exactly as it was. -/
theorem claim_c9_snapshot_isolation :
    ∀ (model : String) (hist : List Message) (turns more : List (String × String)),
      ((interactiveRun model hist (turns ++ more)).1).take turns.length =
        (interactiveRun model hist turns).1 := by
  intro model hist turns
  induction turns generalizing hist with
  | nil => intro more; simp [interactiveRun]
  | cons t rest ih =>
    intro more
    obtain ⟨p, r⟩ := t
    simp only [List.cons_append, interactiveRun, List.length_cons, List.take_succ_cons,
      List.append_eq]
    rw [ih]

/-- C3: for every admissible sequence of `apply_rate_limit` calls with a
fixed `rate_limit`, the first call releases at its own call time (never
waits), consecutive releases are at least `rate_limit` apart, and each
call stores the release time into `last_request_time`. -/
theorem claim_c3_rate_limiter (Δ : Nat) (ts : List Nat)
    (hv : validCallTimes ⟨none, Δ⟩ ts = true) :
    (rateLimiterReleases ⟨none, Δ⟩ ts).head? = ts.head? ∧
    List.Chain' (fun a b => a + Δ ≤ b) (rateLimiterReleases ⟨none, Δ⟩ ts) ∧
    (∀ (s : RateLimiter) (t : Nat),
      (apply_rate_limit s t).2.last_request_time = some (apply_rate_limit s t).1) := by
  refine ⟨?_, (rateLimiterReleases_chain Δ ts none hv).1, fun s t => rfl⟩
  cases ts with
  | nil => rfl
  | cons t ts => simp [rateLimiterReleases, apply_rate_limit]

/-- C3 witness: calls at times 0 and 1 with `rate_limit = 5` release at 0
and 6. -/
theorem claim_c3_rate_limiter_witness :
    (rateLimiterReleases ⟨none, 5⟩ [0, 1]).head? = some 0 ∧
    List.Chain' (fun a b => a + 5 ≤ b) (rateLimiterReleases ⟨none, 5⟩ [0, 1]) := by
  have h := claim_c3_rate_limiter 5 [0, 1] (by decide)
  exact ⟨h.1, h.2.1⟩

/-- C4: a non-2xx HTTP exchange yields an error carrying the status code
and the full response body verbatim, produced by the status check alone —
for every body, parseable as the chat schema or not, the result is this
`ApiRejected`-style error and never a schema-decode failure. -/
theorem claim_c4_api_rejected (status : Nat) (body : String)
    (h : statusIsSuccess status = false) :
    create_chat_completion_check { status := status, body := body } =
      Except.error ("OpenRouter API error: Status " ++ toString status ++ ", Body: " ++ body) := by
  simp [create_chat_completion_check, h]

/-- C4 witness: status 429 with body "rate limited" yields the error
carrying both. -/
theorem claim_c4_api_rejected_witness :
    create_chat_completion_check { status := 429, body := "rate limited" } =
      Except.error "OpenRouter API error: Status 429, Body: rate limited" := by
  have h := claim_c4_api_rejected 429 "rate limited" (by decide)
  simpa using h

/-- C6 counterexample: the claim says the Accept header matches the
envelope's stream flag, with an event-stream media type when `stream` is
true.  The code (line 98) sends `Accept: application/json` for the
stream-true request as well, which is the JSON media type and not an
event-stream one. -/
theorem claim_c6_counterexample :
    (ChatCompletionRequest.mk "anthropic/claude-3.5-sonnet" [] true).stream = true ∧
    headerLookup "Accept"
      (request_headers "key" "https://example.com" "butler"
        (ChatCompletionRequest.mk "anthropic/claude-3.5-sonnet" [] true)) =
      some "application/json" ∧
    ("application/json" : String) ≠ "text/event-stream" := by
  refine ⟨rfl, rfl, by decide⟩

/-- C6 (amended): every send call attaches `Accept: application/json`
regardless of the request's stream flag; the header never varies with the
mode. -/
theorem claim_c6_accept_header :
    ∀ (api_key site_url site_name : String) (req : ChatCompletionRequest),
      headerLookup "Accept" (request_headers api_key site_url site_name req) =
        some "application/json" := by
  intro api_key site_url site_name req
  rfl

/-- C7: in every send call the rate limiter runs first and its state
update is independent of the HTTP outcome — the release time and updated
limiter are the same whatever response comes back, `last_request_time` is
set to the release time, a non-2xx exchange still yields an error result,
and any later call made at or after this call's release is released at
least `rate_limit` after it: a rejected call has consumed one turn. -/
theorem claim_c7_turn_consumed (s : RateLimiter) (now : Nat) (resp : HttpResponse) :
    (create_chat_completion s now resp).1.2.last_request_time =
      some (create_chat_completion s now resp).1.1 ∧
    (∀ resp', (create_chat_completion s now resp').1 = (create_chat_completion s now resp).1) ∧
    (statusIsSuccess resp.status = false →
      ∃ e, (create_chat_completion s now resp).2 = Except.error e) ∧
    (∀ now', (create_chat_completion s now resp).1.1 ≤ now' →
      (create_chat_completion s now resp).1.1 + s.rate_limit ≤
        (apply_rate_limit (create_chat_completion s now resp).1.2 now').1) := by
  refine ⟨rfl, fun resp' => rfl, ?_, ?_⟩
  · intro h
    refine ⟨"OpenRouter API error: Status " ++ toString resp.status ++ ", Body: " ++ resp.body, ?_⟩
    simp [create_chat_completion, create_chat_completion_check, h]
  · intro now' hle
    have hstate : (create_chat_completion s now resp).1.2 =
        (⟨some (create_chat_completion s now resp).1.1, s.rate_limit⟩ : RateLimiter) := rfl
    rw [hstate]
    exact apply_rate_limit_release_ge _ _ _ hle

/-- C7 witness: a call at time 0 against a 429 response with limiter
interval 5 updates the limiter to release time 0, errors out, and forces a
follow-up call at time 3 to release no earlier than 5. -/
theorem claim_c7_turn_consumed_witness :
    (create_chat_completion ⟨none, 5⟩ 0 ⟨429, "rate limited"⟩).1.2.last_request_time =
      some (create_chat_completion ⟨none, 5⟩ 0 ⟨429, "rate limited"⟩).1.1 ∧
    (∃ e, (create_chat_completion ⟨none, 5⟩ 0 ⟨429, "rate limited"⟩).2 = Except.error e) ∧
    (create_chat_completion ⟨none, 5⟩ 0 ⟨429, "rate limited"⟩).1.1 + 5 ≤
      (apply_rate_limit (create_chat_completion ⟨none, 5⟩ 0 ⟨429, "rate limited"⟩).1.2 3).1 := by
  have h := claim_c7_turn_consumed ⟨none, 5⟩ 0 ⟨429, "rate limited"⟩
  exact ⟨h.1, h.2.2.1 (by decide), h.2.2.2 3 (by decide)⟩

/-! ## FrameAssembler: `process_stream` (src/main.rs lines 147-175)

The Rust loop keeps a `String` buffer; after appending a chunk it splits
the buffer on `"\n\n"` (leftmost, non-overlapping, as `str::split` does),
processes every part but the last, and keeps the last part as the new
buffer; on end-of-stream a non-empty buffer is processed as a final
frame.  `splitFrames` is `buffer.split("\n\n").collect()` on `List Char`. -/

def splitFrames : List Char → List (List Char)
  | [] => [[]]
  | [c] => [[c]]
  | c :: d :: rest =>
    if c = '\n' ∧ d = '\n' then [] :: splitFrames rest
    else (c :: (splitFrames (d :: rest)).headD []) :: (splitFrames (d :: rest)).tail

/-- `buffer.contains("\n\n")` (line 156). -/
def containsSep : List Char → Bool
  | [] => false
  | [_] => false
  | c :: d :: rest => (c = '\n' && d = '\n') || containsSep (d :: rest)

/-- One iteration of the `while let Some(chunk)` body (lines 151-164):
append the chunk to the buffer, and if the buffer contains the delimiter,
emit all parts but the last and keep the last as the new buffer. -/
def feedChunk (buffer chunk : List Char) : List (List Char) × List Char :=
  let b := buffer ++ chunk
  if containsSep b then ((splitFrames b).dropLast, (splitFrames b).getLastD [])
  else ([], b)

/-- The whole chunk loop: the frames handed to `process_sse_message`, in
order, and the buffer left at end-of-stream. -/
def runChunks : List Char → List (List Char) → List (List Char) × List Char
  | buf, [] => ([], buf)
  | buf, c :: cs =>
    let fed := feedChunk buf c
    let rest := runChunks fed.2 cs
    (fed.1 ++ rest.1, rest.2)

/-- `process_stream` as the sequence of frames it hands to
`process_sse_message`, including the final non-empty buffer flush of
lines 167-171. -/
def process_stream (chunks : List (List Char)) : List (List Char) :=
  let r := runChunks [] chunks
  if r.2.isEmpty then r.1 else r.1 ++ [r.2]

theorem splitFrames_ne_nil (l : List Char) : splitFrames l ≠ [] := by
  induction l using splitFrames.induct with
  | case1 => simp [splitFrames]
  | case2 c => simp [splitFrames]
  | case3 c d rest h ih => simp [splitFrames, h]
  | case4 c d rest h ih => simp [splitFrames, h]

theorem headD_cons_tail {α : Type} (l : List α) (d : α) (h : l ≠ []) :
    l.headD d :: l.tail = l := by
  cases l with
  | nil => exact absurd rfl h
  | cons a l => rfl

theorem getLastD_irrel {α : Type} (l : List α) (d d' : α) (h : l ≠ []) :
    l.getLastD d = l.getLastD d' := by
  cases l with
  | nil => exact absurd rfl h
  | cons a l => rw [List.getLastD_cons, List.getLastD_cons]

theorem sep_test_false {c d : Char} (h : ¬(c = '\n' ∧ d = '\n')) :
    (c = '\n' && d = '\n') = false := by
  rcases not_and_or.mp h with h1 | h1 <;> simp [h1]

theorem splitFrames_of_not_containsSep (l : List Char) (h : containsSep l = false) :
    splitFrames l = [l] := by
  induction l using splitFrames.induct with
  | case1 => rfl
  | case2 c => rfl
  | case3 c d rest hnl ih =>
    exfalso
    simp [containsSep, hnl] at h
  | case4 c d rest hnl ih =>
    have h' : containsSep (d :: rest) = false := by
      simp only [containsSep, Bool.or_eq_false_iff] at h
      exact h.2
    rw [splitFrames, if_neg hnl, ih h']
    rfl

theorem splitFrames_singleton (l x : List Char) (h : splitFrames l = [x]) : l = x := by
  induction l using splitFrames.induct generalizing x with
  | case1 =>
    simp only [splitFrames] at h
    exact (List.cons.inj h).1
  | case2 c =>
    simp only [splitFrames] at h
    exact (List.cons.inj h).1
  | case3 c d rest hnl ih =>
    rw [splitFrames, if_pos hnl] at h
    exact absurd (List.cons.inj h).2 (splitFrames_ne_nil rest)
  | case4 c d rest hnl ih =>
    rw [splitFrames, if_neg hnl] at h
    have h2 := (List.cons.inj h).2
    have h1 := (List.cons.inj h).1
    have hrec : splitFrames (d :: rest) = [(splitFrames (d :: rest)).headD []] := by
      conv_lhs => rw [← headD_cons_tail (splitFrames (d :: rest)) [] (splitFrames_ne_nil _)]
      rw [h2]
    have hd := ih _ hrec
    rw [← h1]
    exact congrArg (List.cons c) hd

theorem containsSep_getLastD (l : List Char) :
    containsSep ((splitFrames l).getLastD []) = false := by
  induction l using splitFrames.induct with
  | case1 => rfl
  | case2 c => rfl
  | case3 c d rest hnl ih =>
    rw [splitFrames, if_pos hnl, List.getLastD_cons]
    exact ih
  | case4 c d rest hnl ih =>
    rw [splitFrames, if_neg hnl, List.getLastD_cons]
    rcases htail : (splitFrames (d :: rest)).tail with _ | ⟨u, us⟩
    · have hsingle : splitFrames (d :: rest) = [(splitFrames (d :: rest)).headD []] := by
        conv_lhs => rw [← headD_cons_tail (splitFrames (d :: rest)) [] (splitFrames_ne_nil _)]
        rw [htail]
      have heq : d :: rest = (splitFrames (d :: rest)).headD [] :=
        splitFrames_singleton _ _ hsingle
      have hdr : containsSep (d :: rest) = false := by
        rw [hsingle, List.getLastD_cons, List.getLastD_nil] at ih
        rw [heq]
        exact ih
      simp only [List.getLastD_nil]
      rw [← heq]
      show containsSep (c :: d :: rest) = false
      simp only [containsSep, Bool.or_eq_false_iff]
      exact ⟨sep_test_false hnl, hdr⟩
    · have hs : splitFrames (d :: rest) = (splitFrames (d :: rest)).headD [] :: u :: us := by
        rw [← htail]
        exact (headD_cons_tail _ _ (splitFrames_ne_nil _)).symm
      rw [hs, List.getLastD_cons] at ih
      rw [getLastD_irrel (u :: us) _ [] (by simp)]
      rwa [getLastD_irrel (u :: us) _ [] (by simp)] at ih

/-- The crux of split-invariance: splitting `b ++ t` emits all the
complete frames of `b` first, and the remainder of `b` is re-split glued
to the front of `t` — the buffered-remainder strategy of lines 156-163
loses nothing. -/
theorem splitFrames_append (b t : List Char) :
    splitFrames (b ++ t) =
      (splitFrames b).dropLast ++ splitFrames ((splitFrames b).getLastD [] ++ t) := by
  induction b using splitFrames.induct with
  | case1 => rfl
  | case2 c => rfl
  | case3 c d rest hnl ih =>
    simp only [List.cons_append]
    rw [splitFrames, if_pos hnl]
    conv_rhs => rw [splitFrames, if_pos hnl]
    rw [ih]
    rcases hs : splitFrames rest with _ | ⟨s, ss⟩
    · exact absurd hs (splitFrames_ne_nil rest)
    · simp only [List.dropLast_cons₂, List.getLastD_cons, List.cons_append]
  | case4 c d rest hnl ih =>
    simp only [List.cons_append] at ih ⊢
    rw [splitFrames, if_neg hnl]
    conv_rhs => rw [splitFrames, if_neg hnl]
    rw [ih]
    rcases hs : splitFrames (d :: rest) with _ | ⟨h0, hs0⟩
    · exact absurd hs (splitFrames_ne_nil _)
    · rcases hs0 with _ | ⟨u, us⟩
      · have hd : d :: rest = h0 := splitFrames_singleton _ _ hs
        subst hd
        simp only [List.dropLast_single, List.getLastD_cons, List.getLastD_nil,
          List.nil_append, List.cons_append, List.headD_cons, List.tail_cons]
        rw [splitFrames, if_neg hnl]
      · simp only [List.headD_cons, List.tail_cons, List.dropLast_cons₂,
          List.getLastD_cons, List.cons_append]

theorem feedChunk_eq (buffer chunk : List Char) :
    feedChunk buffer chunk =
      ((splitFrames (buffer ++ chunk)).dropLast,
        (splitFrames (buffer ++ chunk)).getLastD []) := by
  rw [feedChunk]
  rcases hc : containsSep (buffer ++ chunk) with _ | _
  · simp only [Bool.false_eq_true, if_false]
    rw [splitFrames_of_not_containsSep _ hc]
    rfl
  · simp

theorem runChunks_eq_splitFrames :
    ∀ (cs : List (List Char)) (buf : List Char), containsSep buf = false →
      splitFrames (buf ++ cs.flatten) = (runChunks buf cs).1 ++ [(runChunks buf cs).2]
  | [], buf, h => by
    simp only [List.flatten_nil, List.append_nil, runChunks]
    exact splitFrames_of_not_containsSep buf h
  | c :: cs, buf, h => by
    have hassoc : buf ++ (c :: cs).flatten = (buf ++ c) ++ cs.flatten := by
      simp [List.flatten_cons, List.append_assoc]
    rw [hassoc, splitFrames_append]
    have ih := runChunks_eq_splitFrames cs ((splitFrames (buf ++ c)).getLastD [])
      (containsSep_getLastD _)
    rw [ih]
    simp only [runChunks, feedChunk_eq, List.append_assoc]

/-- The frame sequence that `process_stream` decodes is invariant under
re-chunking: any chunking of the byte text yields the very frames of the
unsplit text. -/
theorem process_stream_rechunk (chunks : List (List Char)) :
    process_stream chunks = process_stream [chunks.flatten] := by
  have h := runChunks_eq_splitFrames chunks [] rfl
  have h1 := runChunks_eq_splitFrames [chunks.flatten] [] rfl
  simp only [List.nil_append, List.flatten_cons, List.flatten_nil, List.append_nil] at h h1
  rw [process_stream, process_stream]
  have hdrop : ∀ (p q : List (List Char)) (x y : List Char),
      p ++ [x] = q ++ [y] → p = q ∧ x = y := by
    intro p q x y hpq
    have hx := congrArg List.getLast? hpq
    have hp := congrArg List.dropLast hpq
    simp only [List.getLast?_concat, List.dropLast_concat] at hx hp
    exact ⟨hp, by injection hx⟩
  have := hdrop _ _ _ _ (h.symm.trans h1)
  rw [this.1, this.2]

/-! ## EventDecoder: JSON values (`serde_json::from_str::<Value>`, line 182)

An executable model of the JSON parser: values are parsed with a fuel
parameter bounding nesting depth (`2 * length + 2` is always enough,
since at least one character is consumed per two fuel units); objects
keep the last binding of a duplicated key, as `serde_json`'s map does.
Numbers are kept as raw lexemes (their numeric value is never inspected
by the program), and a lone `\u` surrogate escape decodes to the NUL
scalar instead of a pairing error — none of the properties proved here
look at either. -/

inductive Json where
  | null
  | bool (b : Bool)
  | num (raw : List Char)
  | str (s : List Char)
  | arr (elems : List Json)
  | obj (fields : List (List Char × Json))

def skipWs (l : List Char) : List Char :=
  l.dropWhile fun c => c == ' ' || c == '\t' || c == '\n' || c == '\r'

def escChar (e : Char) : Option Char :=
  if e = '"' then some '"'
  else if e = '\\' then some '\\'
  else if e = '/' then some '/'
  else if e = 'b' then some '\x08'
  else if e = 'f' then some '\x0c'
  else if e = 'n' then some '\n'
  else if e = 'r' then some '\r'
  else if e = 't' then some '\t'
  else none

def hexDigit (c : Char) : Option Nat :=
  if '0' ≤ c ∧ c ≤ '9' then some (c.toNat - '0'.toNat)
  else if 'a' ≤ c ∧ c ≤ 'f' then some (c.toNat - 'a'.toNat + 10)
  else if 'A' ≤ c ∧ c ≤ 'F' then some (c.toNat - 'A'.toNat + 10)
  else none

def parseStringBody : List Char → Option (List Char × List Char)
  | [] => none
  | '"' :: rest => some ([], rest)
  | '\\' :: 'u' :: h1 :: h2 :: h3 :: h4 :: rest =>
    match hexDigit h1, hexDigit h2, hexDigit h3, hexDigit h4 with
    | some a, some b, some c, some d =>
      (parseStringBody rest).map fun sr =>
        (Char.ofNat (((a * 16 + b) * 16 + c) * 16 + d) :: sr.1, sr.2)
    | _, _, _, _ => none
  | '\\' :: e :: rest =>
    match escChar e with
    | some c => (parseStringBody rest).map fun sr => (c :: sr.1, sr.2)
    | none => none
  | c :: rest =>
    if c.toNat < 0x20 then none
    else (parseStringBody rest).map fun sr => (c :: sr.1, sr.2)

def parseExpTail (acc : List Char) : List Char → Option (List Char × List Char)
  | c :: s :: r =>
    if (c == 'e' || c == 'E') && (s == '+' || s == '-') then
      let ds := r.takeWhile Char.isDigit
      if ds.isEmpty then none
      else some (acc ++ [c, s] ++ ds, r.dropWhile Char.isDigit)
    else if c == 'e' || c == 'E' then
      let ds := (s :: r).takeWhile Char.isDigit
      if ds.isEmpty then none
      else some (acc ++ [c] ++ ds, (s :: r).dropWhile Char.isDigit)
    else some (acc, c :: s :: r)
  | [c] => if c == 'e' || c == 'E' then none else some (acc, [c])
  | [] => some (acc, [])

def parseFracTail (acc : List Char) : List Char → Option (List Char × List Char)
  | '.' :: r =>
    let ds := r.takeWhile Char.isDigit
    if ds.isEmpty then none
    else parseExpTail (acc ++ '.' :: ds) (r.dropWhile Char.isDigit)
  | l => parseExpTail acc l

def parseNumberNoSign : List Char → Option (List Char × List Char)
  | '0' :: r =>
    match r with
    | c :: _ => if c.isDigit then none else parseFracTail ['0'] r
    | [] => some (['0'], [])
  | c :: r =>
    if c.isDigit then parseFracTail (c :: r.takeWhile Char.isDigit) (r.dropWhile Char.isDigit)
    else none
  | [] => none

def parseNumber : List Char → Option (List Char × List Char)
  | '-' :: l => (parseNumberNoSign l).map fun p => ('-' :: p.1, p.2)
  | l => parseNumberNoSign l

/-- Insert a binding, overwriting an existing key (last duplicate wins). -/
def insertField (fields : List (List Char × Json)) (k : List Char) (v : Json) :
    List (List Char × Json) :=
  (fields.filter fun kv => !(kv.1 == k)) ++ [(k, v)]

mutual

def parseValue : Nat → List Char → Option (Json × List Char)
  | 0, _ => none
  | fuel + 1, input =>
    match skipWs input with
    | 'n' :: 'u' :: 'l' :: 'l' :: rest => some (Json.null, rest)
    | 't' :: 'r' :: 'u' :: 'e' :: rest => some (Json.bool true, rest)
    | 'f' :: 'a' :: 'l' :: 's' :: 'e' :: rest => some (Json.bool false, rest)
    | '"' :: rest => (parseStringBody rest).map fun p => (Json.str p.1, p.2)
    | '[' :: rest =>
      match skipWs rest with
      | ']' :: rest1 => some (Json.arr [], rest1)
      | other => parseElems fuel other []
    | '\x7b' :: rest =>
      match skipWs rest with
      | '\x7d' :: rest1 => some (Json.obj [], rest1)
      | other => parseFields fuel other []
    | c :: rest =>
      if c == '-' || c.isDigit then
        (parseNumber (c :: rest)).map fun p => (Json.num p.1, p.2)
      else none
    | [] => none

def parseElems : Nat → List Char → List Json → Option (Json × List Char)
  | 0, _, _ => none
  | fuel + 1, input, acc =>
    match parseValue fuel input with
    | some (v, rest) =>
      match skipWs rest with
      | ',' :: rest1 => parseElems fuel rest1 (acc ++ [v])
      | ']' :: rest1 => some (Json.arr (acc ++ [v]), rest1)
      | _ => none
    | none => none

def parseFields : Nat → List Char → List (List Char × Json) → Option (Json × List Char)
  | 0, _, _ => none
  | fuel + 1, input, acc =>
    match skipWs input with
    | '"' :: rest =>
      match parseStringBody rest with
      | some (k, rest1) =>
        match skipWs rest1 with
        | ':' :: rest2 =>
          match parseValue fuel rest2 with
          | some (v, rest3) =>
            match skipWs rest3 with
            | ',' :: rest4 => parseFields fuel rest4 (insertField acc k v)
            | '\x7d' :: rest4 => some (Json.obj (insertField acc k v), rest4)
            | _ => none
          | none => none
        | _ => none
      | none => none
    | _ => none

end

/-- `serde_json::from_str::<Value>`: one value, then only trailing
whitespace. -/
def from_str (l : List Char) : Option Json :=
  match parseValue (2 * l.length + 2) l with
  | some (j, rest) => if (skipWs rest).isEmpty then some j else none
  | none => none

/-- `Value` bracket indexing by key: `Null` on any miss or non-object. -/
def Json.getField : Json → List Char → Json
  | Json.obj fields, k =>
    match fields.find? (fun kv => kv.1 == k) with
    | some kv => kv.2
    | none => Json.null
  | _, _ => Json.null

/-- `Value` bracket indexing by position: `Null` out of range or on a
non-array. -/
def Json.getIdx : Json → Nat → Json
  | Json.arr elems, i => elems.getD i Json.null
  | _, _ => Json.null

/-- `Value::as_str`. -/
def Json.asStr : Json → Option (List Char)
  | Json.str s => some s
  | _ => none

/-! ## EventDecoder: `process_sse_message` (src/main.rs lines 177-189) -/

/-- `message.strip_prefix("data: ")`. -/
def dataPayload : List Char → Option (List Char)
  | 'd' :: 'a' :: 't' :: 'a' :: ':' :: ' ' :: rest => some rest
  | _ => none

/-- `str::trim` (both ends, whitespace). -/
def trimChars (l : List Char) : List Char :=
  ((l.dropWhile Char.isWhitespace).reverse.dropWhile Char.isWhitespace).reverse

/-- Embeds `process_sse_message`: strip the `data: ` prefix (line 178),
return nothing for the `[DONE]` terminator (lines 179-181), otherwise
parse the payload as JSON and read `choices[0].delta.content` as a
string (lines 182-186); every other outcome, a parse failure included,
is `none` (line 188). -/
def process_sse_message (message : List Char) : Option (List Char) :=
  match dataPayload message with
  | some data =>
    if trimChars data = "[DONE]".data then none
    else
      match from_str data with
      | some json =>
        ((((json.getField "choices".data).getIdx 0).getField "delta".data).getField
          "content".data).asStr
      | none => none
  | none => none

/-- The terminator test of line 179: the frame is classified final when
the stripped payload, trimmed, is the literal `[DONE]` token. -/
def sse_frame_is_final (message : List Char) : Bool :=
  match dataPayload message with
  | some data => decide (trimChars data = "[DONE]".data)
  | none => false

/-- The text printed by the streaming loop for a frame list: frames that
decode to `none` contribute nothing and the loop continues (lines
158-162 and 167-171). -/
def sseOutput (frames : List (List Char)) : List Char :=
  (frames.filterMap process_sse_message).flatten

/-- Everything `process_stream` prints for a chunked body. -/
def streamOutput (chunks : List (List Char)) : List Char :=
  sseOutput (process_stream chunks)

/-! ## Claim theorems: event decoding and frame assembly -/

/-- C5: the event decoder classifies `data: [DONE]` as the final frame
and yields no text for it; `data: {"choices":[{"delta":{"content":"hi"}}]}`
yields the text `hi` and is not final; `data: {"choices":[{"delta":{}}]}`
(no `content` field) yields no text, and — the decoder being a total
function into `Option` — no error. -/
theorem claim_c5_event_decoder :
    process_sse_message "data: [DONE]".data = none ∧
    sse_frame_is_final "data: [DONE]".data = true ∧
    process_sse_message
        ("data: \x7b\"choices\":[\x7b\"delta\":\x7b\"content\":\"hi\"\x7d\x7d]\x7d").data =
      some "hi".data ∧
    sse_frame_is_final
        ("data: \x7b\"choices\":[\x7b\"delta\":\x7b\"content\":\"hi\"\x7d\x7d]\x7d").data =
      false ∧
    process_sse_message ("data: \x7b\"choices\":[\x7b\"delta\":\x7b\x7d\x7d]\x7d").data =
      none := by
  exact ⟨rfl, rfl, rfl, rfl, rfl⟩

/-- C8: a frame whose payload is not the terminator and fails to parse as
JSON decodes to `none` — a no-op fragment, not an error — and such a
frame contributes nothing to the stream output while the loop continues
with the surrounding frames unchanged. -/
theorem claim_c8_parse_failure_noop :
    (∀ (message data : List Char),
      dataPayload message = some data →
      trimChars data ≠ "[DONE]".data →
      from_str data = none →
      process_sse_message message = none) ∧
    (∀ (pre post : List (List Char)) (bad : List Char),
      process_sse_message bad = none →
      sseOutput (pre ++ bad :: post) = sseOutput (pre ++ post)) := by
  constructor
  · intro message data hd ht hp
    simp only [process_sse_message, hd, hp, if_neg ht]
  · intro pre post bad hb
    simp [sseOutput, List.filterMap_append, List.filterMap_cons, hb]

/-- C8 witness: the malformed frame `data: {oops` decodes to `none` and
dropping it from a stream around a good frame leaves the output
unchanged. -/
theorem claim_c8_parse_failure_noop_witness :
    process_sse_message ("data: \x7boops").data = none ∧
    sseOutput [("data: \x7boops").data,
        ("data: \x7b\"choices\":[\x7b\"delta\":\x7b\"content\":\"hi\"\x7d\x7d]\x7d").data] =
      sseOutput [("data: \x7b\"choices\":[\x7b\"delta\":\x7b\"content\":\"hi\"\x7d\x7d]\x7d").data] := by
  have h1 := claim_c8_parse_failure_noop.1 ("data: \x7boops").data ("\x7boops").data
    rfl (by decide) rfl
  exact ⟨h1, claim_c8_parse_failure_noop.2 [] _ _ h1⟩

/-- C1 (amended): over character chunks — equivalently, over any byte
split that falls on UTF-8 character boundaries — the frame assembler is
split-invariant: any chunking of the body produces exactly the output of
decoding the unsplit body in one piece, and on end-of-stream a non-empty
remaining buffer is decoded as one final frame. -/
theorem claim_c1_split_invariance (chunks : List (List Char)) :
    streamOutput chunks = streamOutput [chunks.flatten] ∧
    ((runChunks [] chunks).2 ≠ [] →
      process_stream chunks = (runChunks [] chunks).1 ++ [(runChunks [] chunks).2]) := by
  constructor
  · unfold streamOutput
    rw [process_stream_rechunk]
  · intro h
    have hne : (runChunks [] chunks).2.isEmpty = false := by
      cases hx : (runChunks [] chunks).2 with
      | nil => exact absurd hx h
      | cons a l => rfl
    rw [process_stream, hne]
    simp

/-- C1 witness: a two-chunk split of a streamed body, cut one byte after
the delimiter, decodes identically to the unsplit body, and the trailing
partial frame is flushed as one final frame at end-of-stream. -/
theorem claim_c1_split_invariance_witness :
    streamOutput
        ["data: \x7b\"choices\":[\x7b\"delta\":\x7b\"content\":\"hi\"\x7d\x7d]\x7d\n\nd".data,
         "ata: [DONE]".data] =
      streamOutput
        [["data: \x7b\"choices\":[\x7b\"delta\":\x7b\"content\":\"hi\"\x7d\x7d]\x7d\n\nd".data,
          "ata: [DONE]".data].flatten] ∧
    process_stream
        ["data: \x7b\"choices\":[\x7b\"delta\":\x7b\"content\":\"hi\"\x7d\x7d]\x7d\n\nd".data,
         "ata: [DONE]".data] =
      (runChunks []
          ["data: \x7b\"choices\":[\x7b\"delta\":\x7b\"content\":\"hi\"\x7d\x7d]\x7d\n\nd".data,
           "ata: [DONE]".data]).1 ++
        [(runChunks []
            ["data: \x7b\"choices\":[\x7b\"delta\":\x7b\"content\":\"hi\"\x7d\x7d]\x7d\n\nd".data,
             "ata: [DONE]".data]).2] := by
  have h := claim_c1_split_invariance
    ["data: \x7b\"choices\":[\x7b\"delta\":\x7b\"content\":\"hi\"\x7d\x7d]\x7d\n\nd".data,
     "ata: [DONE]".data]
  exact ⟨h.1, h.2 (by decide)⟩

/-! ## `String::from_utf8_lossy` (src/main.rs line 153)

`process_stream` converts every chunk to text independently with
`String::from_utf8_lossy` before buffering.  The decoder below follows
the Rust implementation: well-formed sequences decode to their scalar
value, and each maximal valid subpart of an ill-formed sequence is
replaced by one U+FFFD — in particular a sequence truncated by the end
of the chunk yields a single U+FFFD. -/

def repl : Char := '�'

/-- A UTF-8 continuation byte. -/
def contB (b : Nat) : Bool := decide (0x80 ≤ b) && decide (b < 0xC0)

/-- Admissible second byte of a three-byte sequence (excludes overlong
forms and surrogates). -/
def sndOk3 (lead b1 : Nat) : Bool :=
  if lead = 0xE0 then decide (0xA0 ≤ b1) && decide (b1 < 0xC0)
  else if lead = 0xED then decide (0x80 ≤ b1) && decide (b1 < 0xA0)
  else contB b1

/-- Admissible second byte of a four-byte sequence (excludes overlong
forms and values beyond U+10FFFF). -/
def sndOk4 (lead b1 : Nat) : Bool :=
  if lead = 0xF0 then decide (0x90 ≤ b1) && decide (b1 < 0xC0)
  else if lead = 0xF4 then decide (0x80 ≤ b1) && decide (b1 < 0x90)
  else contB b1

def utf8LossyF : Nat → List Nat → List Char
  | _, [] => []
  | 0, _ :: _ => []
  | fuel + 1, b :: rest =>
    if b < 0x80 then Char.ofNat b :: utf8LossyF fuel rest
    else if b < 0xC2 then repl :: utf8LossyF fuel rest
    else if b < 0xE0 then
      match rest with
      | [] => [repl]
      | b1 :: rest1 =>
        if contB b1 then Char.ofNat ((b - 0xC0) * 0x40 + (b1 - 0x80)) :: utf8LossyF fuel rest1
        else repl :: utf8LossyF fuel (b1 :: rest1)
    else if b < 0xF0 then
      match rest with
      | [] => [repl]
      | b1 :: rest1 =>
        if sndOk3 b b1 then
          match rest1 with
          | [] => [repl]
          | b2 :: rest2 =>
            if contB b2 then
              Char.ofNat ((b - 0xE0) * 0x1000 + (b1 - 0x80) * 0x40 + (b2 - 0x80)) ::
                utf8LossyF fuel rest2
            else repl :: utf8LossyF fuel (b2 :: rest2)
        else repl :: utf8LossyF fuel (b1 :: rest1)
    else if b < 0xF5 then
      match rest with
      | [] => [repl]
      | b1 :: rest1 =>
        if sndOk4 b b1 then
          match rest1 with
          | [] => [repl]
          | b2 :: rest2 =>
            if contB b2 then
              match rest2 with
              | [] => [repl]
              | b3 :: rest3 =>
                if contB b3 then
                  Char.ofNat ((b - 0xF0) * 0x40000 + (b1 - 0x80) * 0x1000 +
                      (b2 - 0x80) * 0x40 + (b3 - 0x80)) :: utf8LossyF fuel rest3
                else repl :: utf8LossyF fuel (b3 :: rest3)
            else repl :: utf8LossyF fuel (b2 :: rest2)
        else repl :: utf8LossyF fuel (b1 :: rest1)
    else repl :: utf8LossyF fuel rest

/-- `String::from_utf8_lossy`: at least one byte is consumed per step, so
the length of the input is always enough fuel. -/
def utf8Lossy (l : List Nat) : List Char := utf8LossyF l.length l

/-- `str::from_utf8` validity, with the same branch structure as
`utf8Lossy`. -/
def utf8Valid : List Nat → Bool
  | [] => true
  | b :: rest =>
    if b < 0x80 then utf8Valid rest
    else if b < 0xC2 then false
    else if b < 0xE0 then
      match rest with
      | [] => false
      | b1 :: rest1 => contB b1 && utf8Valid rest1
    else if b < 0xF0 then
      match rest with
      | [] => false
      | b1 :: rest1 =>
        if sndOk3 b b1 then
          match rest1 with
          | [] => false
          | b2 :: rest2 => contB b2 && utf8Valid rest2
        else false
    else if b < 0xF5 then
      match rest with
      | [] => false
      | b1 :: rest1 =>
        if sndOk4 b b1 then
          match rest1 with
          | [] => false
          | b2 :: rest2 =>
            if contB b2 then
              match rest2 with
              | [] => false
              | b3 :: rest3 => contB b3 && utf8Valid rest3
            else false
        else false
    else false

/-- Invalid bytes are substituted, never rejected: an ill-formed chunk
still decodes, with at least one replacement character in the output. -/
theorem utf8LossyF_repl (fuel : Nat) (l : List Nat) (hlen : l.length ≤ fuel)
    (hv : utf8Valid l = false) : repl ∈ utf8LossyF fuel l := by
  induction fuel, l using utf8LossyF.induct
  case case1 => simp [utf8Valid] at hv
  case case2 head tail => simp at hlen
  case case3 fuel b rest h ih =>
    have hv' : utf8Valid rest = false := by
      rw [utf8Valid.eq_def] at hv
      simpa [h] using hv
    have hlen' : rest.length ≤ fuel := by
      simp only [List.length_cons] at hlen
      omega
    rw [utf8LossyF.eq_def]
    simp [h, ih hlen' hv']
  case case4 fuel b rest h1 h2 ih =>
    rw [utf8LossyF.eq_def]
    simp [h1, h2]
  case case5 fuel b h1 h2 h3 =>
    rw [utf8LossyF.eq_def]
    simp [h1, h2, h3]
  case case6 fuel b h1 h2 h3 b1 rest1 hc ih =>
    have hv' : utf8Valid rest1 = false := by
      rw [utf8Valid.eq_def] at hv
      simpa [h1, h2, h3, hc] using hv
    have hlen' : rest1.length ≤ fuel := by
      simp only [List.length_cons] at hlen
      omega
    rw [utf8LossyF.eq_def]
    simp [h1, h2, h3, hc, ih hlen' hv']
  case case7 fuel b h1 h2 h3 b1 rest1 hc ih =>
    rw [utf8LossyF.eq_def]
    simp [h1, h2, h3, hc]
  case case8 fuel b h1 h2 h3 h4 =>
    rw [utf8LossyF.eq_def]
    simp [h1, h2, h3, h4]
  case case9 fuel b h1 h2 h3 h4 b1 hs =>
    rw [utf8LossyF.eq_def]
    simp [h1, h2, h3, h4, hs]
  case case10 fuel b h1 h2 h3 h4 b1 hs b2 rest2 hc ih =>
    have hv' : utf8Valid rest2 = false := by
      rw [utf8Valid.eq_def] at hv
      simpa [h1, h2, h3, h4, hs, hc] using hv
    have hlen' : rest2.length ≤ fuel := by
      simp only [List.length_cons] at hlen
      omega
    rw [utf8LossyF.eq_def]
    simp [h1, h2, h3, h4, hs, hc, ih hlen' hv']
  case case11 fuel b h1 h2 h3 h4 b1 hs b2 rest2 hc ih =>
    rw [utf8LossyF.eq_def]
    simp [h1, h2, h3, h4, hs, hc]
  case case12 fuel b h1 h2 h3 h4 b1 rest1 hs ih =>
    rw [utf8LossyF.eq_def]
    simp [h1, h2, h3, h4, hs]
  case case13 fuel b h1 h2 h3 h4 h5 =>
    rw [utf8LossyF.eq_def]
    simp [h1, h2, h3, h4, h5]
  case case14 fuel b h1 h2 h3 h4 h5 b1 hs =>
    rw [utf8LossyF.eq_def]
    simp [h1, h2, h3, h4, h5, hs]
  case case15 fuel b h1 h2 h3 h4 h5 b1 hs b2 hc =>
    rw [utf8LossyF.eq_def]
    simp [h1, h2, h3, h4, h5, hs, hc]
  case case16 fuel b h1 h2 h3 h4 h5 b1 hs b2 hc b3 rest3 hc3 ih =>
    have hv' : utf8Valid rest3 = false := by
      rw [utf8Valid.eq_def] at hv
      simpa [h1, h2, h3, h4, h5, hs, hc, hc3] using hv
    have hlen' : rest3.length ≤ fuel := by
      simp only [List.length_cons] at hlen
      omega
    rw [utf8LossyF.eq_def]
    simp [h1, h2, h3, h4, h5, hs, hc, hc3, ih hlen' hv']
  case case17 fuel b h1 h2 h3 h4 h5 b1 hs b2 hc b3 rest3 hc3 ih =>
    rw [utf8LossyF.eq_def]
    simp [h1, h2, h3, h4, h5, hs, hc, hc3]
  case case18 fuel b h1 h2 h3 h4 h5 b1 hs b2 rest2 hc ih =>
    rw [utf8LossyF.eq_def]
    simp [h1, h2, h3, h4, h5, hs, hc]
  case case19 fuel b h1 h2 h3 h4 h5 b1 rest1 hs ih =>
    rw [utf8LossyF.eq_def]
    simp [h1, h2, h3, h4, h5, hs]
  case case20 fuel b rest h1 h2 h3 h4 h5 ih =>
    rw [utf8LossyF.eq_def]
    simp [h1, h2, h3, h4, h5]

/-- Invalid bytes are substituted, never rejected: an ill-formed chunk
still decodes, with at least one replacement character in the output. -/
theorem utf8Lossy_repl (l : List Nat) (hv : utf8Valid l = false) :
    repl ∈ utf8Lossy l :=
  utf8LossyF_repl l.length l (Nat.le_refl _) hv

/-- The byte-level pipeline of `process_stream`: each chunk is decoded
independently and lossily (line 153), then buffered and split. -/
def process_stream_bytes (chunks : List (List Nat)) : List (List Char) :=
  process_stream (chunks.map utf8Lossy)

/-- The text printed for a byte-chunked body. -/
def streamOutputBytes (chunks : List (List Nat)) : List Char :=
  sseOutput (process_stream_bytes chunks)

/-- The spec's well-formed streamed body carrying the euro sign, cut one
byte inside the character's three-byte UTF-8 encoding. -/
def euroFrontBytes : List Nat :=
  ("data: \x7b\"choices\":[\x7b\"delta\":\x7b\"content\":\"").data.map Char.toNat ++ [0xE2, 0x82]

def euroBackBytes : List Nat :=
  [0xAC] ++ ("\"\x7d\x7d]\x7d\n\n").data.map Char.toNat

/-- C1 counterexample: the claim quantifies over every way of splitting
the body's bytes into chunks, but each chunk is decoded to text
independently (line 153), so splitting inside the three-byte encoding of
a euro sign turns it into two replacement characters: the unsplit body
yields the text `€`, while the two-chunk split of the same bytes yields
different text. -/
theorem claim_c1_counterexample :
    streamOutputBytes [euroFrontBytes ++ euroBackBytes] = "€".data ∧
    streamOutputBytes [euroFrontBytes, euroBackBytes] ≠
      streamOutputBytes [euroFrontBytes ++ euroBackBytes] := by
  exact ⟨by decide, by decide⟩

/-- C10: `process_stream` never fails on decoding — each byte chunk is
converted to text independently and lossily, and a chunk that is not
valid UTF-8 (a split multi-byte character included) still decodes, with
the replacement character in its text rather than an error. -/
theorem claim_c10_lossy_decode (chunks : List (List Nat)) :
    process_stream_bytes chunks = process_stream (chunks.map utf8Lossy) ∧
    (∀ bytes ∈ chunks, utf8Valid bytes = false → repl ∈ utf8Lossy bytes) := by
  exact ⟨rfl, fun bytes _ hv => utf8Lossy_repl bytes hv⟩

/-- C10 witness: the euro sign split across two chunks — each half is
invalid UTF-8 on its own, and each decodes to a replacement character
rather than failing. -/
theorem claim_c10_lossy_decode_witness :
    process_stream_bytes [[0xE2, 0x82], [0xAC]] =
      process_stream ([[0xE2, 0x82], [0xAC]].map utf8Lossy) ∧
    utf8Valid [0xE2, 0x82] = false ∧
    repl ∈ utf8Lossy [0xE2, 0x82] := by
  have h := claim_c10_lossy_decode [[0xE2, 0x82], [0xAC]]
  exact ⟨h.1, by decide, h.2 [0xE2, 0x82] (by decide) (by decide)⟩
